import Mathlib

/-!
Verification development for the APIGateway repository's gateway core.

The repository ships the gateway's data model and contracts (SQL schema in
src/backend/scripts/init_db.sql, the routing-rule migration, and the REST
type definitions in src/front/src/types/api.ts), while the engine itself
(backend/app/core/gateway) is not part of the supplied sources.  Definitions
below therefore come in two kinds: data-model definitions transcribed from
the SQL/TypeScript artifacts, and operational definitions modelled from the
specification of the missing engine, each marked as such in its doc comment.
-/

namespace Gateway

/-- Protocol identifiers, from the ProtocolType enum in src/front/src/types/api.ts
and the protocol CHECK constraints in src/backend/scripts/init_db.sql. -/
inductive ProtocolType
  | udp | http | websocket | mqtt | tcp
deriving DecidableEq, Repr

/-- Routing-condition operators, from the OPERATOR_OPTIONS list in
src/front/src/utils/auth.ts (equals, not_equals, contains, not_contains,
greater_than, less_than, greater_or_equal, less_or_equal, regex, exists). -/
inductive CondOp
  | eq | ne | contains | notContains | gt | lt | ge | le | regexMatch | fieldExists
deriving DecidableEq, Repr

/-- Per-rule logical operator, from the routing_rules.logical_operator CHECK
constraint (AND | OR) in init_db.sql. -/
inductive LogicalOp
  | and | or
deriving DecidableEq, Repr

/-- Parsed message field values.  Numeric values are rationals so the linear
scale transform of frame fields is exact; strings, booleans and null cover the
remaining JSON scalar shapes stored in parsed_data. -/
inductive Value
  | num (q : Rat)
  | str (s : String)
  | boolV (b : Bool)
  | nullV
deriving DecidableEq, Repr

/-- One routing condition: field path, operator, comparison value (the
conditions JSONB array of routing_rules). -/
structure Condition where
  field : String
  op : CondOp
  value : Value
deriving DecidableEq, Repr

/-- The nested source_config of a routing rule (protocols list, data-source id
list, glob pattern), from the business-oriented migration's source_config
column comment. -/
structure SourceConfig where
  protocols : List ProtocolType
  source_ids : List Nat
  pattern : Option String
deriving DecidableEq, Repr

/-- A routing rule row: priority, source filter, condition list with one
logical operator, target-system references, active and published flags.
Mirrors the routing_rules table of init_db.sql; rule ids are modelled as
naturals so the id tie-break order is explicit. -/
structure RoutingRule where
  id : Nat
  name : String
  priority : Nat
  source_config : SourceConfig
  conditions : List Condition
  logical_operator : LogicalOp
  target_systems : List String
  is_active : Bool
  is_published : Bool
deriving DecidableEq, Repr

/-- The slice of a unified message the routing engine consumes: source
protocol, source id, logical topic/path, and the parsed field map. -/
structure Msg where
  protocol : ProtocolType
  source_id : Nat
  topic : String
  fields : List (String × Value)
deriving DecidableEq, Repr

/-- Modelled from the spec: glob-style matching with the single wildcard
star character, used by the routing engine's source pattern filter (spec
section 4.3).  The engine implementation is absent from src. -/
def globMatch : List Char → List Char → Bool
  | [], s => s.isEmpty
  | c :: ps, [] => c == '*' && globMatch ps []
  | c :: ps, d :: ss =>
    if c == '*' then globMatch ps (d :: ss) || globMatch (c :: ps) ss
    else c == d && globMatch ps ss
termination_by p s => p.length + s.length

/-- Whether the needle occurs at the head of the haystack. -/
def leadMatch : List Char → List Char → Bool
  | [], _ => true
  | _ :: _, [] => false
  | a :: as, b :: bs => a == b && leadMatch as bs

/-- Whether the needle occurs anywhere in the haystack. -/
def subSearch (needle : List Char) : List Char → Bool
  | [] => needle.isEmpty
  | c :: rest => leadMatch needle (c :: rest) || subSearch needle rest

/-- Substring containment on strings. -/
def strContains (hay pat : String) : Bool := subSearch pat.data hay.data

/-- Modelled from the spec: evaluation of one condition against the parsed
field map, per the operator semantics of spec section 3 (the engine
implementation is absent from src).  A missing field fails every operator
including the existence test; the regex operator is simplified to substring
containment, which no claim exercises. -/
def evalCond (fields : List (String × Value)) (c : Condition) : Bool :=
  match fields.lookup c.field with
  | none => false
  | some v =>
    match c.op with
    | .eq => decide (v = c.value)
    | .ne => decide (v ≠ c.value)
    | .contains =>
      match v, c.value with
      | .str s, .str t => strContains s t
      | _, _ => false
    | .notContains =>
      match v, c.value with
      | .str s, .str t => !strContains s t
      | _, _ => false
    | .gt =>
      match v, c.value with
      | .num a, .num b => decide (b < a)
      | _, _ => false
    | .lt =>
      match v, c.value with
      | .num a, .num b => decide (a < b)
      | _, _ => false
    | .ge =>
      match v, c.value with
      | .num a, .num b => decide (b ≤ a)
      | _, _ => false
    | .le =>
      match v, c.value with
      | .num a, .num b => decide (a ≤ b)
      | _, _ => false
    | .regexMatch =>
      match v, c.value with
      | .str s, .str t => strContains s t
      | _, _ => false
    | .fieldExists => true

/-- Modelled from the spec: combining a rule's condition results with its
single logical operator; an empty condition list is vacuously true (spec
section 4.3). -/
def condsPass (r : RoutingRule) (fields : List (String × Value)) : Bool :=
  if r.conditions.isEmpty then true
  else
    match r.logical_operator with
    | .and => r.conditions.all (evalCond fields)
    | .or => r.conditions.any (evalCond fields)

/-- Modelled from the spec: the source filter of spec section 4.3 — protocol
in the rule's protocol list (empty = any), source id in the id list (empty =
any), and the glob pattern, when present, matching the message topic. -/
def sourceMatches (sc : SourceConfig) (m : Msg) : Bool :=
  (sc.protocols.isEmpty || sc.protocols.contains m.protocol)
    && (sc.source_ids.isEmpty || sc.source_ids.contains m.source_id)
    && (match sc.pattern with
        | none => true
        | some p => globMatch p.data m.topic.data)

/-- Modelled from the spec: a rule matches a message when both its source
filter and its combined condition list pass (spec section 4.3). -/
def ruleMatches (m : Msg) (r : RoutingRule) : Bool :=
  sourceMatches r.source_config m && condsPass r m.fields

/-- Eligibility for matching: active AND published, as in the
active_routing_rules view of init_db.sql. -/
def eligible (r : RoutingRule) : Bool := r.is_active && r.is_published

/-- The rule evaluation order: priority descending, ties broken by rule id
ascending. -/
def ruleOrder (a b : RoutingRule) : Prop :=
  b.priority < a.priority ∨ (a.priority = b.priority ∧ a.id ≤ b.id)

instance : DecidableRel ruleOrder := fun a b => by
  unfold ruleOrder; infer_instance

instance : IsTotal RoutingRule ruleOrder where
  total a b := by
    unfold ruleOrder
    rcases Nat.lt_trichotomy a.priority b.priority with h | h | h
    · exact Or.inr (Or.inl h)
    · rcases Nat.le_total a.id b.id with h' | h'
      · exact Or.inl (Or.inr ⟨h, h'⟩)
      · exact Or.inr (Or.inr ⟨h.symm, h'⟩)
    · exact Or.inl (Or.inl h)

instance : IsTrans RoutingRule ruleOrder where
  trans a b c hab hbc := by
    unfold ruleOrder at *
    rcases hab with h1 | ⟨h1, h1'⟩ <;> rcases hbc with h2 | ⟨h2, h2'⟩
    · exact Or.inl (h2.trans h1)
    · exact Or.inl (h2 ▸ h1)
    · exact Or.inl (h1 ▸ h2)
    · exact Or.inr ⟨h1.trans h2, h1'.trans h2'⟩

/-- Modelled from the spec: the Routing Engine's match operation (spec
section 4.3, absent from src) — take the rules with active AND published,
order them by priority descending with id-ascending tie-break, and keep every
rule whose source filter and condition list pass; no short-circuit on the
first match. -/
def matchRules (rules : List RoutingRule) (m : Msg) : List RoutingRule :=
  (List.insertionSort ruleOrder (rules.filter eligible)).filter (ruleMatches m)

/-- The target systems contributed by the matching rules, in rule order. -/
def matchTargets (rules : List RoutingRule) (m : Msg) : List String :=
  (matchRules rules m).flatMap (fun r => r.target_systems)

/-- Replace a rule's draft flag: publishing sets is_published and changes
nothing else. -/
def publishRule (r : RoutingRule) : RoutingRule := { r with is_published := true }

/-- Processing status of a unified message, from the message_logs
processing_status column and spec section 4.4. -/
inductive ProcStatus
  | received | parsing | validated | routed | transformed | forwarded | failed
deriving DecidableEq, Repr

/-- A message_logs row (the columns the routing claims touch): message id,
terminal processing status, error message. -/
structure MessageLog where
  message_id : String
  processing_status : ProcStatus
  error_message : Option String
deriving DecidableEq, Repr

/-- The in-flight unified message state carried through the pipeline. -/
structure PipeMsg where
  message_id : String
  msg : Msg
  status : ProcStatus
  error_message : Option String
  target_systems : List String
  matched_rules : List Nat
deriving DecidableEq, Repr

/-- The message_logs rows recorded for one message id. -/
def logsFor (id : String) (logs : List MessageLog) : List MessageLog :=
  logs.filter (fun l => l.message_id == id)

/-- Modelled from the spec: the Data Pipeline's validated-to-routed
transition (spec section 4.4, pipeline implementation absent from src).
If zero rules match, the message moves to the terminal failed status with
reason unrouted and exactly one message_logs row is appended recording it;
otherwise the message becomes routed and carries the matched rule ids and
the contributed target systems. -/
def routeStage (rules : List RoutingRule) (pm : PipeMsg) (logs : List MessageLog) :
    PipeMsg × List MessageLog :=
  let matched := matchRules rules pm.msg
  if matched.isEmpty then
    ({ pm with status := .failed, error_message := some "unrouted" },
     logs ++ [{ message_id := pm.message_id, processing_status := .failed,
                error_message := some "unrouted" }])
  else
    ({ pm with status := .routed,
               matched_rules := matched.map (fun r => r.id),
               target_systems := matched.flatMap (fun r => r.target_systems) },
     logs)

/-- Per-target forwarder configuration: retry count and per-attempt timeout,
from the forwarder_config JSONB of target_systems (ForwarderConfig in
api.ts). -/
structure TargetCfg where
  id : String
  retry_count : Nat
  timeout : Nat
deriving DecidableEq, Repr

/-- Forward-attempt outcome recorded in forward_logs. -/
inductive FwdStatus
  | success | failed
deriving DecidableEq, Repr

/-- A forward_logs row (the columns the forwarding claims touch): target id,
terminal status, recorded retry count, the per-attempt timeout used, and how
many attempts were made. -/
structure ForwardLog where
  target_id : String
  status : FwdStatus
  retry_count : Nat
  attempt_timeout : Nat
  attempts_made : Nat
deriving DecidableEq, Repr

/-- Modelled from the spec: forwarding to one target (spec sections 4.4 and
4.6, forwarder implementation absent from src).  The outcome oracle gives the
result of attempt number i against a target id; the forwarder tries up to the
target's retry_count attempts, each allotted the target's timeout, stops at
the first success, and after exhausting retries records a failed forward_logs
row whose retry_count equals the configured count. -/
def forwardOne (outcome : String → Nat → Bool) (t : TargetCfg) : ForwardLog :=
  match (List.range t.retry_count).find? (outcome t.id) with
  | some i =>
    { target_id := t.id, status := .success, retry_count := i,
      attempt_timeout := t.timeout, attempts_made := i + 1 }
  | none =>
    { target_id := t.id, status := .failed, retry_count := t.retry_count,
      attempt_timeout := t.timeout, attempts_made := t.retry_count }

/-- Modelled from the spec: fan-out forwarding — one independent attempt
sequence per target, results collected independently (spec section 4.4). -/
def forwardAll (outcome : String → Nat → Bool) (targets : List TargetCfg) :
    List ForwardLog :=
  targets.map (forwardOne outcome)

/-- One entry of the migrated target_systems JSONB array, as built by
jsonb_build_object in migrate_routing_rules_business_oriented.sql. -/
structure MigTargetEntry where
  id : String
  timeout : Nat
  retry : Nat
  protocol_options : Option String
deriving DecidableEq, Repr

/-- The entry the migration builds for one legacy target id:
timeout 5000, retry 3, protocol_options null. -/
def legacyEntry (tid : String) : MigTargetEntry :=
  { id := tid, timeout := 5000, retry := 3, protocol_options := none }

/-- A routing_rules row as the migration sees it: the legacy
target_system_ids column and the nested target_systems column, plus fields
the migration never touches. -/
structure RoutingRuleRow where
  id : Nat
  name : String
  priority : Nat
  target_system_ids : Option (List String)
  target_systems : Option (List MigTargetEntry)
deriving DecidableEq, Repr

/-- The aggregated value of the migration's jsonb_agg subquery over the
elements of target_system_ids: a PostgreSQL aggregate over zero input rows
returns NULL, so an empty legacy list yields NULL, and a non-empty list
yields one entry per id in order. -/
def migrateTargets (ids : List String) : Option (List MigTargetEntry) :=
  match ids with
  | [] => none
  | _ :: _ => some (ids.map legacyEntry)

/-- The migration UPDATE of
src/backend/scripts/migrate_routing_rules_business_oriented.sql, lines 21-35:
SET target_systems to the aggregated entries WHERE target_systems IS NULL AND
target_system_ids IS NOT NULL; every other row is untouched. -/
def migrateRow (r : RoutingRuleRow) : RoutingRuleRow :=
  if r.target_systems = none then
    match r.target_system_ids with
    | none => r
    | some ids => { r with target_systems := migrateTargets ids }
  else r

/-- The migration applied to a whole routing_rules state. -/
def migrate (rows : List RoutingRuleRow) : List RoutingRuleRow :=
  rows.map migrateRow

deriving instance DecidableEq for Except

/-- Frame shapes, from the FrameType enum in api.ts and the
frame_schemas_type_check constraint (fixed | variable | delimited);
the variable shape is spelled varLen since its source name is a Lean
keyword. -/
inductive FrameType
  | fixed | varLen | delimited
deriving DecidableEq, Repr

/-- Field data types, from the DataType enum in api.ts. -/
inductive DataType
  | int8 | uint8 | int16 | uint16 | int32 | uint32 | int64 | uint64
  | float32 | float64 | stringT | bytesT | booleanT | timestamp
deriving DecidableEq, Repr

/-- Byte orders, from the ByteOrder enum in api.ts. -/
inductive ByteOrder
  | bigEndian | littleEndian
deriving DecidableEq, Repr

/-- Checksum algorithms, from the ChecksumType enum in api.ts. -/
inductive ChecksumType
  | noneT | crc16T | crc32T | md5 | sha256 | simpleSum
deriving DecidableEq, Repr

/-- One frame field descriptor, from FrameFieldConfig in api.ts: name, data
type, byte offset, byte length, byte order, optional linear scale factor and
offset value. -/
structure FrameFieldConfig where
  name : String
  data_type : DataType
  offset : Nat
  length : Nat
  byte_order : ByteOrder
  scale : Option Rat
  offset_value : Option Rat
deriving DecidableEq, Repr

/-- The checksum descriptor, from FrameChecksumConfig in api.ts: algorithm,
byte offset and byte length of the embedded checksum. -/
structure FrameChecksumConfig where
  type : ChecksumType
  offset : Nat
  length : Nat
deriving DecidableEq, Repr

/-- A frame schema row, from the frame_schemas table of init_db.sql and
FrameSchema in api.ts. -/
structure FrameSchema where
  name : String
  version : String
  protocol_type : ProtocolType
  frame_type : FrameType
  total_length : Option Nat
  fields : List FrameFieldConfig
  checksum : Option FrameChecksumConfig
  is_published : Bool
deriving DecidableEq, Repr

/-- Big-endian interpretation of a byte list as an unsigned integer. -/
def bytesToNatBE (bs : List Nat) : Nat :=
  bs.foldl (fun acc b => acc * 256 + b) 0

/-- Unsigned interpretation honoring the byte order. -/
def bytesToNat (bo : ByteOrder) (bs : List Nat) : Nat :=
  match bo with
  | .bigEndian => bytesToNatBE bs
  | .littleEndian => bytesToNatBE bs.reverse

/-- Big-endian encoding of an unsigned integer into exactly len bytes. -/
def natToBytesBE : Nat → Nat → List Nat
  | 0, _ => []
  | len + 1, n => natToBytesBE len (n / 256) ++ [n % 256]

/-- Unsigned encoding honoring the byte order. -/
def natToBytes (bo : ByteOrder) (len n : Nat) : List Nat :=
  match bo with
  | .bigEndian => natToBytesBE len n
  | .littleEndian => (natToBytesBE len n).reverse

/-- Two's-complement reading of a raw unsigned value of the given bit width. -/
def toSigned (bits raw : Nat) : Int :=
  if raw < 2 ^ (bits - 1) then (raw : Int) else (raw : Int) - 2 ^ bits

/-- Two's-complement writing of a signed value into the given bit width. -/
def fromSigned (bits : Nat) (v : Int) : Nat :=
  (v % (2 : Int) ^ bits).toNat

/-- The len bytes of a buffer starting at a byte offset; bytes beyond the end
read as zero. -/
def readAt (buf : List Nat) (off len : Nat) : List Nat :=
  (List.range len).map (fun j => buf.getD (off + j) 0)

/-- Overwrite the bytes of a buffer starting at a byte offset. -/
def writeAt : List Nat → Nat → List Nat → List Nat
  | buf, _, [] => buf
  | buf, off, b :: bs => writeAt (buf.set off b) (off + 1) bs

/-- One shift round of the CRC16/Modbus register update (polynomial 0xA001,
reflected). -/
def crcRound (c : Nat) : Nat :=
  if c % 2 = 1 then (c / 2) ^^^ 40961 else c / 2

/-- Iterated CRC16 shift rounds. -/
def crcRounds : Nat → Nat → Nat
  | 0, c => c
  | n + 1, c => crcRounds n (crcRound c)

/-- Folding one input byte into the CRC16 register. -/
def crcStep (c b : Nat) : Nat := crcRounds 8 (c ^^^ b)

/-- CRC16/Modbus of a byte list (initial register 0xFFFF). -/
def crc16 (bs : List Nat) : Nat := bs.foldl crcStep 65535

/-- Modelled from the spec: the checksum computation over the covered byte
range (spec section 4.1, parser implementation absent from src).  SIMPLE_SUM
is the byte sum reduced to the embedded width; CRC16 is CRC16/Modbus; the
cryptographic digests MD5 and SHA256 are outside the shallow embedding and
yield none, as does NONE/CRC32. -/
def computeChecksum (ct : ChecksumType) (len : Nat) (bs : List Nat) : Option Nat :=
  match ct with
  | .simpleSum => some (bs.sum % 2 ^ (8 * len))
  | .crc16T => some (crc16 bs)
  | _ => none

/-- Whether a data type decodes as an unsigned integer in the model
(timestamps are raw unsigned seconds). -/
def isUnsignedType : DataType → Bool
  | .uint8 | .uint16 | .uint32 | .uint64 | .timestamp => true
  | _ => false

/-- Whether a data type decodes as a two's-complement signed integer. -/
def isSignedType : DataType → Bool
  | .int8 | .int16 | .int32 | .int64 => true
  | _ => false

/-- Modelled from the spec: the linear transform scaled = raw * scale +
offset_value, applied after decode when scale or offset_value is present
(spec section 4.1); with neither present the raw integer is the value. -/
def applyLinear (scale offv : Option Rat) (i : Int) : Rat :=
  match scale, offv with
  | none, none => (i : Rat)
  | _, _ => (i : Rat) * scale.getD 1 + offv.getD 0

/-- The encode-direction inverse of applyLinear: the raw integer whose
transform is the given value, when that preimage is an integer; none when the
scale is zero or the preimage is not integral. -/
def unapplyLinear (scale offv : Option Rat) (v : Rat) : Option Int :=
  match scale, offv with
  | none, none => if v.den = 1 then some v.num else none
  | _, _ =>
    let sc := scale.getD 1
    if sc = 0 then none
    else
      let q := (v - offv.getD 0) / sc
      if q.den = 1 then some q.num else none

/-- Modelled from the spec: decoding one field from its own bytes — unsigned
or two's-complement integer per the data type, then the linear transform
(spec section 4.1).  Float, string and byte fields are outside the integer
model and yield none. -/
def decodeFieldBytes (f : FrameFieldConfig) (bs : List Nat) : Option Value :=
  let raw := bytesToNat f.byte_order bs
  if isUnsignedType f.data_type then
    some (.num (applyLinear f.scale f.offset_value (Int.ofNat raw)))
  else if isSignedType f.data_type then
    some (.num (applyLinear f.scale f.offset_value (toSigned (8 * f.length) raw)))
  else none

/-- Decoding one field from the frame buffer: read length bytes at the
field's offset, honoring the byte order, then decode. -/
def decodeField (buf : List Nat) (f : FrameFieldConfig) : Option Value :=
  decodeFieldBytes f (readAt buf f.offset f.length)

/-- Modelled from the spec: the encode direction of one field — undo the
linear transform, range-check the raw integer against the field width, and
emit the field's bytes; none when the value is not representable. -/
def encodeField (f : FrameFieldConfig) (v : Value) : Option (List Nat) :=
  match v with
  | .num q =>
    match unapplyLinear f.scale f.offset_value q with
    | none => none
    | some i =>
      if isUnsignedType f.data_type then
        if 0 ≤ i ∧ i < (256 : Int) ^ f.length then
          some (natToBytes f.byte_order f.length i.toNat)
        else none
      else if isSignedType f.data_type then
        if 0 < f.length ∧ -((2 : Int) ^ (8 * f.length - 1)) ≤ i
            ∧ i < (2 : Int) ^ (8 * f.length - 1) then
          some (natToBytes f.byte_order f.length (fromSigned (8 * f.length) i))
        else none
      else none
  | _ => none

/-- Writing each field's encoding into the frame buffer, left to right;
none as soon as one field's value is not representable. -/
def encodeFields (vals : String → Value) (buf : List Nat) :
    List FrameFieldConfig → Option (List Nat)
  | [] => some buf
  | f :: fs =>
    match encodeField f (vals f.name) with
    | none => none
    | some bs => encodeFields vals (writeAt buf f.offset bs) fs

/-- Modelled from the spec: encoding a valid field-value map into a FIXED
frame byte buffer per a schema (spec section 8) — write every field into a
zeroed buffer of total_length bytes, then compute the checksum over the
covered range before the checksum offset and embed it little-endian. -/
def encode (schema : FrameSchema) (vals : String → Value) : Option (List Nat) :=
  match schema.frame_type, schema.total_length with
  | .fixed, some L =>
    match encodeFields vals (List.replicate L 0) schema.fields with
    | none => none
    | some buf =>
      match schema.checksum with
      | none => some buf
      | some ck =>
        match computeChecksum ck.type ck.length (readAt buf 0 ck.offset) with
        | none => none
        | some v => some (writeAt buf ck.offset (natToBytes .littleEndian ck.length v))
  | _, _ => none

/-- The parse error taxonomy of spec sections 4.1 and 7, as error values
(parse never throws). -/
inductive ParseError
  | FrameLengthMismatch
  | ChecksumInvalid
  | MissingTotalLength
  | UnsupportedFrameType
  | UnsupportedFieldType
  | UnsupportedChecksumType
deriving DecidableEq, Repr

/-- Decoding every schema field from a frame buffer, in schema order. -/
def decodeFields (buf : List Nat) :
    List FrameFieldConfig → Option (List (String × Value))
  | [] => some []
  | f :: fs =>
    match decodeField buf f, decodeFields buf fs with
    | some v, some rest => some ((f.name, v) :: rest)
    | _, _ => none

/-- Modelled from the spec: checksum verification (spec section 4.1) —
recompute over the covered range before the checksum offset and compare with
the embedded little-endian value; none when the algorithm is outside the
model. -/
def verifyChecksum (buf : List Nat) (ck : FrameChecksumConfig) : Option Bool :=
  match computeChecksum ck.type ck.length (readAt buf 0 ck.offset) with
  | none => none
  | some v => some (v == bytesToNat .littleEndian (readAt buf ck.offset ck.length))

/-- Modelled from the spec: the Frame Parser's parse contract for FIXED
frames (spec section 4.1, parser implementation absent from src).  Rejects a
buffer whose length differs from total_length with FrameLengthMismatch;
verifies the checksum when a descriptor is present and reports a mismatch as
the error value ChecksumInvalid; otherwise decodes every field.  VARIABLE and
DELIMITED framing and the non-integer field types are outside this model. -/
def parse (schema : FrameSchema) (buf : List Nat) :
    Except ParseError (List (String × Value)) :=
  match schema.frame_type with
  | .fixed =>
    match schema.total_length with
    | none => .error .MissingTotalLength
    | some L =>
      if buf.length ≠ L then .error .FrameLengthMismatch
      else
        match schema.checksum with
        | some ck =>
          match verifyChecksum buf ck with
          | none => .error .UnsupportedChecksumType
          | some ok =>
            if ok then
              match decodeFields buf schema.fields with
              | none => .error .UnsupportedFieldType
              | some m => .ok m
            else .error .ChecksumInvalid
        | none =>
          match decodeFields buf schema.fields with
          | none => .error .UnsupportedFieldType
          | some m => .ok m
  | _ => .error .UnsupportedFrameType

/-- Configuration errors raised by the management layer at schema-create
time (spec section 7). -/
inductive ConfigError
  | ConfigurationInconsistency
  | DuplicateNameVersion
deriving DecidableEq, Repr

/-- The create payload, from CreateFrameSchemaDto in api.ts. -/
structure CreateFrameSchemaDto where
  name : String
  version : String
  protocol_type : ProtocolType
  frame_type : FrameType
  total_length : Option Nat
  fields : List FrameFieldConfig
  checksum : Option FrameChecksumConfig
  is_published : Bool
deriving DecidableEq, Repr

/-- Modelled from the spec: the management layer's schema-create operation
(spec section 7, management service absent from src).  A FIXED frame schema
without total_length is rejected with ConfigurationInconsistencyError; a
duplicate name+version pair is rejected per the UNIQUE (name, version)
constraint of init_db.sql; otherwise the schema row is appended to the
store. -/
def createFrameSchema (store : List FrameSchema) (dto : CreateFrameSchemaDto) :
    Except ConfigError (List FrameSchema) :=
  if dto.frame_type = .fixed ∧ dto.total_length = none then
    .error .ConfigurationInconsistency
  else if store.any (fun s => s.name == dto.name && s.version == dto.version) then
    .error .DuplicateNameVersion
  else
    .ok (store ++ [{ name := dto.name, version := dto.version,
                     protocol_type := dto.protocol_type,
                     frame_type := dto.frame_type,
                     total_length := dto.total_length,
                     fields := dto.fields, checksum := dto.checksum,
                     is_published := dto.is_published }])

/-- Applying one create request to the persisted store, keeping the store
unchanged when the management layer rejects the request. -/
def applyCreate (store : List FrameSchema) (dto : CreateFrameSchemaDto) :
    List FrameSchema :=
  match createFrameSchema store dto with
  | .ok store' => store'
  | .error _ => store

/-- The persisted-store invariant of claim C9: every FIXED schema has
total_length set. -/
def fixedHasLength (store : List FrameSchema) : Prop :=
  ∀ s ∈ store, s.frame_type = .fixed → s.total_length.isSome

/-- Two frame fields occupy disjoint byte ranges. -/
def fieldsDisjoint (f g : FrameFieldConfig) : Prop :=
  f.offset + f.length ≤ g.offset ∨ g.offset + g.length ≤ f.offset

instance : DecidableRel fieldsDisjoint := fun f g => by
  unfold fieldsDisjoint; infer_instance

/-- Sanity of a FIXED schema's checksum descriptor: the embedded checksum
fits in the frame, the algorithm is one the model computes with a width that
matches it, and every field lies inside the covered range before the
checksum offset. -/
def checksumOk (L : Nat) (ck : Option FrameChecksumConfig)
    (fs : List FrameFieldConfig) : Prop :=
  match ck with
  | none => True
  | some c =>
    c.offset + c.length ≤ L
    ∧ (c.type = .simpleSum ∧ 1 ≤ c.length ∨ c.type = .crc16T ∧ c.length = 2)
    ∧ ∀ f ∈ fs, f.offset + f.length ≤ c.offset

/-- An unconstrained source filter: any protocol, any source, no pattern. -/
def anySource : SourceConfig :=
  { protocols := [], source_ids := [], pattern := none }

/-- Rule A of spec Scenario 2: priority 10, condition temperature greater
than 30, target AlertSystem. -/
def ruleA : RoutingRule :=
  { id := 1, name := "A", priority := 10, source_config := anySource,
    conditions := [{ field := "temperature", op := .gt, value := .num 30 }],
    logical_operator := .and, target_systems := ["AlertSystem"],
    is_active := true, is_published := true }

/-- Rule B of spec Scenario 2: priority 5, empty (vacuously true) condition
list, target NormalSystem. -/
def ruleB : RoutingRule :=
  { id := 2, name := "B", priority := 5, source_config := anySource,
    conditions := [], logical_operator := .and,
    target_systems := ["NormalSystem"],
    is_active := true, is_published := true }

/-- The Scenario 2 message: field temperature = 35. -/
def msgTemp35 : Msg :=
  { protocol := .udp, source_id := 7, topic := "sensors",
    fields := [("temperature", .num 35)] }

/-- A message no demo rule's conditions accept: temperature = 10. -/
def msgTemp10 : Msg :=
  { protocol := .udp, source_id := 7, topic := "sensors",
    fields := [("temperature", .num 10)] }

/-- An unpublished draft copy of rule A, for the publish scenario. -/
def ruleDraft : RoutingRule :=
  { ruleA with id := 3, name := "draft", is_published := false }

/-- An in-flight message wrapper around the Scenario 2 message. -/
def pipeMsgDemo : PipeMsg :=
  { message_id := "m-1", msg := msgTemp35, status := .validated,
    error_message := none, target_systems := [], matched_rules := [] }

/-- The Scenario 3 target: retry_count 3, timeout 2000 ms. -/
def alertTarget : TargetCfg :=
  { id := "AlertSystem", retry_count := 3, timeout := 2000 }

/-- A sibling target whose first attempt succeeds. -/
def normalTarget : TargetCfg :=
  { id := "NormalSystem", retry_count := 3, timeout := 1000 }

/-- A forced outcome: every attempt against AlertSystem times out, every
attempt against any other target succeeds. -/
def demoOutcome : String → Nat → Bool :=
  fun id _ => !(id == "AlertSystem")

/-- A small FIXED schema for the round-trip witness: an unsigned 16-bit
big-endian field, a signed 8-bit field, and a one-byte SIMPLE_SUM checksum. -/
def demoSchema : FrameSchema :=
  { name := "demo", version := "1.0.0", protocol_type := .udp,
    frame_type := .fixed, total_length := some 4,
    fields :=
      [{ name := "a", data_type := .uint16, offset := 0, length := 2,
         byte_order := .bigEndian, scale := none, offset_value := none },
       { name := "b", data_type := .int8, offset := 2, length := 1,
         byte_order := .bigEndian, scale := none, offset_value := none }],
    checksum := some { type := .simpleSum, offset := 3, length := 1 },
    is_published := true }

/-- A valuation for the round-trip witness: a = 1000, b = -5. -/
def demoVals : String → Value :=
  fun s => if s = "a" then .num 1000 else if s = "b" then .num (-5) else .nullV

/-- The Scenario 1 Modbus-style FIXED 16-byte schema: slave_id UINT8 at 0,
function_code UINT8 at 1, raw_value UINT32 big-endian at 4, CRC16 checksum at
offset 12 length 2 (the scada_fixed template of DataSourceForm.tsx, restricted
to the fields the scenario names). -/
def modbusSchema : FrameSchema :=
  { name := "scada_fixed", version := "1.0.0", protocol_type := .udp,
    frame_type := .fixed, total_length := some 16,
    fields :=
      [{ name := "slave_id", data_type := .uint8, offset := 0, length := 1,
         byte_order := .bigEndian, scale := none, offset_value := none },
       { name := "function_code", data_type := .uint8, offset := 1, length := 1,
         byte_order := .bigEndian, scale := none, offset_value := none },
       { name := "raw_value", data_type := .uint32, offset := 4, length := 4,
         byte_order := .bigEndian, scale := none, offset_value := none }],
    checksum := some { type := .crc16T, offset := 12, length := 2 },
    is_published := true }

/-- A correctly checksummed 16-byte Modbus frame carrying raw_value = 1000:
CRC16/Modbus of the first 12 bytes is 41462, embedded little-endian as
246, 161. -/
def modbusBuf : List Nat :=
  [1, 3, 0, 0, 0, 0, 3, 232, 0, 0, 0, 0, 246, 161, 0, 0]

/-- A create request for a FIXED schema that omits total_length. -/
def badFixedDto : CreateFrameSchemaDto :=
  { name := "bad", version := "1.0.0", protocol_type := .udp,
    frame_type := .fixed, total_length := none, fields := [],
    checksum := none, is_published := false }

/-- A well-formed create request for a FIXED schema. -/
def goodFixedDto : CreateFrameSchemaDto :=
  { name := "good", version := "1.0.0", protocol_type := .udp,
    frame_type := .fixed, total_length := some 16, fields := [],
    checksum := none, is_published := false }

/-- A legacy routing_rules row whose target_system_ids is the empty JSON
array: the migration's jsonb_agg aggregates zero rows there. -/
def emptyIdsRow : RoutingRuleRow :=
  { id := 1, name := "legacy-empty", priority := 50,
    target_system_ids := some [], target_systems := none }

/-- A legacy routing_rules row with two target ids and no nested value. -/
def legacyRow : RoutingRuleRow :=
  { id := 2, name := "legacy", priority := 60,
    target_system_ids := some ["t-1", "t-2"], target_systems := none }

/-- Membership in the match result is exactly: in the rule set, eligible,
and matching. -/
theorem mem_matchRules_iff (rules : List RoutingRule) (m : Msg) (r : RoutingRule) :
    r ∈ matchRules rules m ↔
      r ∈ rules ∧ eligible r = true ∧ ruleMatches m r = true := by
  unfold matchRules
  rw [List.mem_filter,
    (List.perm_insertionSort ruleOrder (rules.filter eligible)).mem_iff,
    List.mem_filter]
  tauto

/-- The match result is sorted by the evaluation order. -/
theorem sorted_matchRules (rules : List RoutingRule) (m : Msg) :
    (matchRules rules m).Sorted ruleOrder := by
  unfold matchRules
  exact List.Pairwise.filter _
    (List.sorted_insertionSort ruleOrder (rules.filter eligible))

/-- A sorted list is determined by its multiset of elements when the order
is antisymmetric on those elements. -/
theorem sorted_perm_eq_of_antisymm {α : Type} {R : α → α → Prop} :
    ∀ (l₁ l₂ : List α), l₁.Perm l₂ → l₁.Sorted R → l₂.Sorted R →
      (∀ a ∈ l₁, ∀ b ∈ l₁, R a b → R b a → a = b) → l₁ = l₂ := by
  intro l₁
  induction l₁ with
  | nil =>
    intro l₂ hp _ _ _
    exact hp.nil_eq
  | cons a t ih =>
    intro l₂ hp hs₁ hs₂ hanti
    cases l₂ with
    | nil => exact absurd hp.symm.nil_eq (by simp)
    | cons b t₂ =>
      have hab : a = b := by
        by_contra hne
        have hbmem : b ∈ a :: t := hp.symm.mem_iff.mp (List.mem_cons_self b t₂)
        have hamem : a ∈ b :: t₂ := hp.mem_iff.mp (List.mem_cons_self a t)
        have hb_t : b ∈ t := by
          rcases List.mem_cons.mp hbmem with h | h
          · exact absurd h.symm hne
          · exact h
        have ha_t₂ : a ∈ t₂ := by
          rcases List.mem_cons.mp hamem with h | h
          · exact absurd h hne
          · exact h
        have h1 : R a b := (List.sorted_cons.mp hs₁).1 b hb_t
        have h2 : R b a := (List.sorted_cons.mp hs₂).1 a ha_t₂
        exact hne (hanti a (List.mem_cons_self a t) b hbmem h1 h2)
      subst hab
      have ht := ih t₂ hp.cons_inv (List.sorted_cons.mp hs₁).2
        (List.sorted_cons.mp hs₂).2
        (fun x hx y hy => hanti x (List.mem_cons_of_mem a hx) y
          (List.mem_cons_of_mem a hy))
      rw [ht]

/-- Claim C1: for every rule set and fixed message, repeated invocations of
the Routing Engine's match return the same list; the returned list is
ordered by priority descending with ties broken by rule id ascending; and
when the (priority, id) key determines the rule, this ordering determines
the list uniquely. -/
theorem claim1_match_deterministic_ordered (rules : List RoutingRule) (m : Msg) :
    matchRules rules m = matchRules rules m
    ∧ (matchRules rules m).Sorted ruleOrder
    ∧ ∀ l, l.Perm (matchRules rules m) → l.Sorted ruleOrder →
        (∀ a ∈ rules, ∀ b ∈ rules,
          a.priority = b.priority → a.id = b.id → a = b) →
        l = matchRules rules m := by
  refine ⟨rfl, sorted_matchRules rules m, ?_⟩
  intro l hp hs hkey
  refine sorted_perm_eq_of_antisymm l (matchRules rules m) hp hs
    (sorted_matchRules rules m) ?_
  intro x hx y hy hxy hyx
  have hx' : x ∈ rules := ((mem_matchRules_iff rules m x).mp (hp.mem_iff.mp hx)).1
  have hy' : y ∈ rules := ((mem_matchRules_iff rules m y).mp (hp.mem_iff.mp hy)).1
  unfold ruleOrder at hxy hyx
  rcases hxy with h1 | ⟨h1, h1'⟩ <;> rcases hyx with h2 | ⟨h2, h2'⟩
  · omega
  · omega
  · omega
  · exact hkey x hx' y hy' h1 (Nat.le_antisymm h1' h2')

/-- Witness for C1 at a concrete rule set and message. -/
theorem claim1_witness :
    [ruleA, ruleB] = matchRules [ruleB, ruleA] msgTemp35 := by
  have h := claim1_match_deterministic_ordered [ruleB, ruleA] msgTemp35
  exact h.2.2 [ruleA, ruleB] (by decide) (by decide) (by decide)

/-- Claim C2: every rule in the set whose eligibility, source filter and
condition list all pass appears in the match result and contributes its
target systems (no short-circuit on the first match); and the Scenario 2
instance — rule A priority 10 with temperature greater than 30 targeting
AlertSystem, rule B priority 5 with an empty condition list targeting
NormalSystem, message temperature 35 — yields the target list AlertSystem
then NormalSystem in that priority order. -/
theorem claim2_all_matching_rules_contribute (rules : List RoutingRule) (m : Msg) :
    (∀ r ∈ rules, eligible r = true → ruleMatches m r = true →
      r ∈ matchRules rules m ∧ ∀ t ∈ r.target_systems, t ∈ matchTargets rules m)
    ∧ matchTargets [ruleA, ruleB] msgTemp35 = ["AlertSystem", "NormalSystem"] := by
  constructor
  · intro r hr he hm
    have hmem := (mem_matchRules_iff rules m r).mpr ⟨hr, he, hm⟩
    refine ⟨hmem, fun t ht => ?_⟩
    unfold matchTargets
    exact List.mem_flatMap.mpr ⟨r, hmem, ht⟩
  · decide

/-- Witness for C2: rule B also fires alone on a message rule A rejects. -/
theorem claim2_witness :
    ruleB ∈ matchRules [ruleA, ruleB] msgTemp10
    ∧ "NormalSystem" ∈ matchTargets [ruleA, ruleB] msgTemp10 := by
  have h := (claim2_all_matching_rules_contribute [ruleA, ruleB] msgTemp10).1
    ruleB (by decide) (by decide) (by decide)
  exact ⟨h.1, h.2 "NormalSystem" (by decide)⟩

/-- Claim C3: every rule in a match result is active and published; a rule
with published false never appears in a match result; and the published copy
of an active, matching rule, present in the rule set, does appear for the
identical message. -/
theorem claim3_only_published_match (rules : List RoutingRule) (m : Msg) :
    (∀ r ∈ matchRules rules m, r.is_active = true ∧ r.is_published = true)
    ∧ (∀ r : RoutingRule, r.is_published = false → r ∉ matchRules rules m)
    ∧ (∀ (pre post : List RoutingRule) (r : RoutingRule),
        r.is_active = true → ruleMatches m r = true →
        publishRule r ∈ matchRules (pre ++ publishRule r :: post) m) := by
  refine ⟨?_, ?_, ?_⟩
  · intro r hr
    have h := ((mem_matchRules_iff rules m r).mp hr).2.1
    unfold eligible at h
    exact ⟨(Bool.and_eq_true _ _).mp h |>.1, (Bool.and_eq_true _ _).mp h |>.2⟩
  · intro r hpub hmem
    have h := ((mem_matchRules_iff rules m r).mp hmem).2.1
    simp [eligible, hpub] at h
  · intro pre post r ha hm
    refine (mem_matchRules_iff _ m _).mpr ⟨?_, ?_, ?_⟩
    · exact List.mem_append.mpr (Or.inr (List.mem_cons_self _ _))
    · show eligible (publishRule r) = true
      simp [eligible, publishRule, ha]
    · exact hm

/-- Witness for C3: the unpublished draft never matches, its published copy
does. -/
theorem claim3_witness :
    ruleDraft ∉ matchRules [ruleA, ruleB, ruleDraft] msgTemp35
    ∧ publishRule ruleDraft ∈
        matchRules ([ruleA, ruleB] ++ publishRule ruleDraft :: []) msgTemp35 := by
  have h := claim3_only_published_match [ruleA, ruleB, ruleDraft] msgTemp35
  exact ⟨h.2.1 ruleDraft (by decide),
    h.2.2 [ruleA, ruleB] [] ruleDraft (by decide) (by decide)⟩

/-- Claim C4: when zero rules match, the routing stage moves the message to
the terminal failed status with reason unrouted and, on a log holding no
rows for that message, persists exactly one message_logs row recording that
status — never zero rows. -/
theorem claim4_unrouted_accounting (rules : List RoutingRule) (pm : PipeMsg)
    (logs : List MessageLog)
    (hnone : matchRules rules pm.msg = [])
    (hfresh : logsFor pm.message_id logs = []) :
    (routeStage rules pm logs).1.status = .failed
    ∧ (routeStage rules pm logs).1.error_message = some "unrouted"
    ∧ logsFor pm.message_id (routeStage rules pm logs).2 =
        [{ message_id := pm.message_id, processing_status := .failed,
           error_message := some "unrouted" }]
    ∧ (logsFor pm.message_id (routeStage rules pm logs).2).length = 1 := by
  have key : routeStage rules pm logs =
      ({ pm with status := .failed, error_message := some "unrouted" },
       logs ++ [{ message_id := pm.message_id, processing_status := .failed,
                  error_message := some "unrouted" }]) := by
    unfold routeStage
    simp [hnone]
  rw [key]
  unfold logsFor at hfresh ⊢
  rw [List.filter_append, hfresh]
  simp

/-- Witness for C4 on an empty rule set and fresh log. -/
theorem claim4_witness :
    (routeStage [] pipeMsgDemo []).1.status = .failed
    ∧ (routeStage [] pipeMsgDemo []).1.error_message = some "unrouted"
    ∧ logsFor pipeMsgDemo.message_id (routeStage [] pipeMsgDemo []).2 =
        [{ message_id := pipeMsgDemo.message_id, processing_status := .failed,
           error_message := some "unrouted" }]
    ∧ (logsFor pipeMsgDemo.message_id (routeStage [] pipeMsgDemo []).2).length = 1 :=
  claim4_unrouted_accounting [] pipeMsgDemo [] (by decide) (by decide)

/-- Claim C5: a target all of whose attempts fail yields a failed
forward_logs row recording the configured retry_count and the configured
per-attempt timeout; a target's row depends only on that target's own
attempt outcomes; every target's row appears in the fan-out result, so a
forced failure on one target never suppresses a sibling's success row; no
more attempts are made than retry_count; and the Scenario 3 instance —
retry_count 3, every attempt timing out, beside a healthy sibling — records
retry_count 3 with status failed while the sibling's success row is
produced. -/
theorem claim5_forward_retry_isolation :
    (∀ (outcome : String → Nat → Bool) (t : TargetCfg),
      (∀ i, i < t.retry_count → outcome t.id i = false) →
      forwardOne outcome t =
        { target_id := t.id, status := .failed, retry_count := t.retry_count,
          attempt_timeout := t.timeout, attempts_made := t.retry_count })
    ∧ (∀ (o₁ o₂ : String → Nat → Bool) (t : TargetCfg),
        (∀ i, o₁ t.id i = o₂ t.id i) → forwardOne o₁ t = forwardOne o₂ t)
    ∧ (∀ (outcome : String → Nat → Bool) (targets : List TargetCfg)
        (t : TargetCfg), t ∈ targets →
        forwardOne outcome t ∈ forwardAll outcome targets)
    ∧ (∀ (outcome : String → Nat → Bool) (t : TargetCfg),
        (forwardOne outcome t).attempts_made ≤ t.retry_count
        ∧ (forwardOne outcome t).attempt_timeout = t.timeout)
    ∧ forwardAll demoOutcome [alertTarget, normalTarget] =
        [{ target_id := "AlertSystem", status := .failed, retry_count := 3,
           attempt_timeout := 2000, attempts_made := 3 },
         { target_id := "NormalSystem", status := .success, retry_count := 0,
           attempt_timeout := 1000, attempts_made := 1 }] := by
  refine ⟨?_, ?_, ?_, ?_, by decide⟩
  · intro outcome t hfail
    have hnone : (List.range t.retry_count).find? (outcome t.id) = none := by
      rw [List.find?_eq_none]
      intro i hi
      simp [hfail i (List.mem_range.mp hi)]
    simp [forwardOne, hnone]
  · intro o₁ o₂ t h
    have : o₁ t.id = o₂ t.id := funext h
    simp [forwardOne, this]
  · intro outcome targets t ht
    exact List.mem_map_of_mem (forwardOne outcome) ht
  · intro outcome t
    cases hfind : (List.range t.retry_count).find? (outcome t.id) with
    | none => simp [forwardOne, hfind]
    | some i =>
      have : i ∈ List.range t.retry_count := List.mem_of_find?_eq_some hfind
      have := List.mem_range.mp this
      simp [forwardOne, hfind]
      omega

/-- Witness for C5 at the Scenario 3 target with the forced-failure
outcome. -/
theorem claim5_witness :
    forwardOne demoOutcome alertTarget =
      { target_id := "AlertSystem", status := .failed, retry_count := 3,
        attempt_timeout := 2000, attempts_made := 3 } :=
  claim5_forward_retry_isolation.1 demoOutcome alertTarget (by decide)

/-- One create request keeps the FIXED-implies-total-length invariant of
the persisted store. -/
theorem applyCreate_preserves (store : List FrameSchema) (d : CreateFrameSchemaDto)
    (h : fixedHasLength store) : fixedHasLength (applyCreate store d) := by
  unfold applyCreate createFrameSchema
  by_cases hc : d.frame_type = .fixed ∧ d.total_length = none
  · rw [if_pos hc]
    exact h
  · rw [if_neg hc]
    by_cases hdup :
        (store.any fun s => s.name == d.name && s.version == d.version) = true
    · rw [if_pos hdup]
      exact h
    · rw [if_neg hdup]
      intro s hs
      rcases List.mem_append.mp hs with hmem | hmem
      · exact h s hmem
      · rw [List.mem_singleton] at hmem
        subst hmem
        intro hfix
        have hnn : d.total_length ≠ none := fun hn => hc ⟨hfix, hn⟩
        simpa [Option.isSome_iff_ne_none] using hnn

/-- Claim C9: a FIXED frame schema without total_length is rejected at
schema-create time with ConfigurationInconsistencyError, and a persisted
store built only through create requests keeps the invariant that every
FIXED schema has total_length set — so such a schema never reaches the
Frame Parser. -/
theorem claim9_fixed_requires_total_length :
    (∀ (store : List FrameSchema) (dto : CreateFrameSchemaDto),
      dto.frame_type = .fixed → dto.total_length = none →
      createFrameSchema store dto = .error .ConfigurationInconsistency)
    ∧ ∀ (store : List FrameSchema) (dtos : List CreateFrameSchemaDto),
        fixedHasLength store → fixedHasLength (dtos.foldl applyCreate store) := by
  constructor
  · intro store dto h1 h2
    simp [createFrameSchema, h1, h2]
  · intro store dtos
    induction dtos generalizing store with
    | nil => exact fun h => h
    | cons d ds ih =>
      intro h
      exact ih (applyCreate store d) (applyCreate_preserves store d h)

/-- Witness for C9: the total_length-less FIXED request is rejected and a
store built from the well-formed request satisfies the invariant. -/
theorem claim9_witness :
    createFrameSchema [] badFixedDto = .error .ConfigurationInconsistency
    ∧ fixedHasLength ([goodFixedDto].foldl applyCreate []) :=
  ⟨claim9_fixed_requires_total_length.1 [] badFixedDto rfl rfl,
   claim9_fixed_requires_total_length.2 [] [goodFixedDto]
     (fun s hs => absurd hs (List.not_mem_nil s))⟩

/-- Claim C10 as stated fails on a legacy row whose target_system_ids is the
empty array: jsonb_agg over zero rows yields NULL, so the migration leaves
target_systems NULL instead of producing the empty entry list. -/
theorem claim10_counterexample :
    emptyIdsRow.target_systems = none
    ∧ emptyIdsRow.target_system_ids = some []
    ∧ (migrateRow emptyIdsRow).target_systems ≠
        some (([] : List String).map legacyEntry) := by
  decide

/-- Claim C10 amended: the migration rewrites exactly the rows with
target_systems NULL and a non-empty target_system_ids, producing one
timeout-5000/retry-3/protocol_options-null entry per legacy id in the legacy
list's order; a row with non-null target_systems or with NULL
target_system_ids is unchanged; a row whose legacy list is empty keeps
target_systems NULL (jsonb_agg over zero rows is NULL); and re-running the
migration changes nothing. -/
theorem claim10_migration_behavior (r : RoutingRuleRow) :
    (r.target_systems ≠ none → migrateRow r = r)
    ∧ (r.target_system_ids = none → migrateRow r = r)
    ∧ (∀ tid ids, r.target_systems = none →
        r.target_system_ids = some (tid :: ids) →
        migrateRow r =
          { r with target_systems := some ((tid :: ids).map legacyEntry) })
    ∧ (r.target_systems = none → r.target_system_ids = some [] →
        migrateRow r = r)
    ∧ migrateRow (migrateRow r) = migrateRow r := by
  obtain ⟨rid, rname, rpriority, rtsi, rts⟩ := r
  refine ⟨?_, ?_, ?_, ?_, ?_⟩
  · intro h
    cases rts with
    | none => exact absurd rfl h
    | some v => unfold migrateRow; simp
  · intro h
    simp only at h
    subst h
    cases rts <;> (unfold migrateRow; simp)
  · intro tid ids hts hids
    simp only at hts hids
    subst hts
    subst hids
    unfold migrateRow
    simp [migrateTargets]
  · intro hts hids
    simp only at hts hids
    subst hts
    subst hids
    unfold migrateRow
    simp [migrateTargets]
  · cases rts with
    | some v => unfold migrateRow; simp
    | none =>
      cases rtsi with
      | none => unfold migrateRow; simp
      | some ids =>
        cases ids with
        | nil => unfold migrateRow; simp [migrateTargets]
        | cons tid rest => unfold migrateRow; simp [migrateTargets]

/-- Witness for the amended C10 at a two-id legacy row. -/
theorem claim10_witness :
    migrateRow legacyRow =
      { legacyRow with
        target_systems := some (("t-1" :: ["t-2"]).map legacyEntry) } :=
  (claim10_migration_behavior legacyRow).2.2.1 "t-1" ["t-2"] rfl rfl

/-- The big-endian encoder emits exactly len bytes. -/
theorem length_natToBytesBE (len : Nat) :
    ∀ n, (natToBytesBE len n).length = len := by
  induction len with
  | zero => intro n; rfl
  | succ k ih =>
    intro n
    simp [natToBytesBE, ih]

/-- Every byte the big-endian encoder emits is below 256. -/
theorem mem_natToBytesBE (len : Nat) :
    ∀ n, ∀ b ∈ natToBytesBE len n, b < 256 := by
  induction len with
  | zero =>
    intro n b hb
    simp [natToBytesBE] at hb
  | succ k ih =>
    intro n b hb
    rw [show natToBytesBE (k + 1) n = natToBytesBE k (n / 256) ++ [n % 256] from rfl]
      at hb
    rcases List.mem_append.mp hb with h | h
    · exact ih _ b h
    · have : b = n % 256 := by simpa using h
      subst this
      exact Nat.mod_lt _ (by omega)

/-- Folding one more byte onto a big-endian reading. -/
theorem bytesToNatBE_append_single (xs : List Nat) (b : Nat) :
    bytesToNatBE (xs ++ [b]) = bytesToNatBE xs * 256 + b := by
  unfold bytesToNatBE
  rw [List.foldl_append]
  rfl

/-- Reading back a big-endian encoding recovers the value below 256 to the
len. -/
theorem bytesToNatBE_natToBytesBE (len : Nat) :
    ∀ n, n < 256 ^ len → bytesToNatBE (natToBytesBE len n) = n := by
  induction len with
  | zero =>
    intro n h
    have : n = 0 := by simpa using h
    subst this
    rfl
  | succ k ih =>
    intro n h
    rw [show natToBytesBE (k + 1) n = natToBytesBE k (n / 256) ++ [n % 256] from rfl]
    rw [bytesToNatBE_append_single]
    have hdiv : n / 256 < 256 ^ k := by
      rw [Nat.div_lt_iff_lt_mul (by omega : 0 < 256)]
      rw [pow_succ] at h
      omega
    rw [ih (n / 256) hdiv]
    omega

/-- The byte-order encoder emits exactly len bytes. -/
theorem length_natToBytes (bo : ByteOrder) (len n : Nat) :
    (natToBytes bo len n).length = len := by
  cases bo <;> simp [natToBytes, length_natToBytesBE]

/-- Every byte the byte-order encoder emits is below 256. -/
theorem mem_natToBytes (bo : ByteOrder) (len n : Nat) :
    ∀ b ∈ natToBytes bo len n, b < 256 := by
  cases bo <;> intro b hb
  · exact mem_natToBytesBE len n b hb
  · exact mem_natToBytesBE len n b (List.mem_reverse.mp hb)

/-- Reading back an encoding with the same byte order recovers the value. -/
theorem bytesToNat_natToBytes (bo : ByteOrder) (len n : Nat)
    (h : n < 256 ^ len) : bytesToNat bo (natToBytes bo len n) = n := by
  cases bo
  · exact bytesToNatBE_natToBytesBE len n h
  · show bytesToNatBE (natToBytesBE len n).reverse.reverse = n
    rw [List.reverse_reverse]
    exact bytesToNatBE_natToBytesBE len n h

/-- A two's-complement image always fits in the bit width. -/
theorem fromSigned_lt (bits : Nat) (v : Int) : fromSigned bits v < 2 ^ bits := by
  unfold fromSigned
  have hM : (0 : Int) < (2 : Int) ^ bits := by positivity
  have h1 := Int.emod_nonneg v (ne_of_gt hM)
  have h2 := Int.emod_lt_of_pos v hM
  have hcast : ((2 : Int) ^ bits) = ((2 ^ bits : Nat) : Int) := by push_cast; ring
  rw [hcast] at h1 h2 ⊢
  omega

/-- Reading back a two's-complement image recovers a value in range. -/
theorem toSigned_fromSigned (bits : Nat) (v : Int) (hbits : 0 < bits)
    (h1 : -((2 : Int) ^ (bits - 1)) ≤ v) (h2 : v < (2 : Int) ^ (bits - 1)) :
    toSigned bits (fromSigned bits v) = v := by
  have hsplitN : 2 ^ bits = 2 * 2 ^ (bits - 1) := by
    conv_lhs => rw [show bits = bits - 1 + 1 by omega]
    rw [pow_succ]
    ring
  have hcastK : ((2 : Int) ^ (bits - 1)) = ((2 ^ (bits - 1) : Nat) : Int) := by
    push_cast; ring
  have hcastM : ((2 : Int) ^ bits) = ((2 ^ bits : Nat) : Int) := by
    push_cast; ring
  have hMpos : (0 : Int) < (2 : Int) ^ bits := by positivity
  unfold toSigned fromSigned
  by_cases hv : 0 ≤ v
  · have hvlt : v < (2 : Int) ^ bits := by
      rw [hcastM]
      rw [hcastK] at h2
      omega
    rw [Int.emod_eq_of_lt hv hvlt]
    rw [hcastK] at h2
    have hc : v.toNat < 2 ^ (bits - 1) := by omega
    rw [if_pos hc]
    omega
  · push_neg at hv
    have hadd : v % (2 : Int) ^ bits = v + (2 : Int) ^ bits := by
      have e1 : (v + (2 : Int) ^ bits * 1) % (2 : Int) ^ bits =
          v % (2 : Int) ^ bits := Int.add_mul_emod_self_left v ((2 : Int) ^ bits) 1
      rw [mul_one] at e1
      rw [← e1]
      apply Int.emod_eq_of_lt
      · rw [hcastM]
        rw [hcastK] at h1
        omega
      · omega
    rw [hadd]
    have hc : ¬ ((v + (2 : Int) ^ bits).toNat < 2 ^ (bits - 1)) := by
      rw [hcastM] at *
      rw [hcastK] at h1 h2
      omega
    rw [if_neg hc]
    rw [hcastM] at *
    omega

/-- Setting a position reads back the written byte. -/
theorem getD_set_self (l : List Nat) (i b : Nat) (h : i < l.length) :
    (l.set i b).getD i 0 = b := by
  rw [List.getD_eq_getElem?_getD, List.getElem?_set]
  simp [h]

/-- Setting a position leaves every other position unchanged. -/
theorem getD_set_ne (l : List Nat) (i j b : Nat) (h : i ≠ j) :
    (l.set i b).getD j 0 = l.getD j 0 := by
  rw [List.getD_eq_getElem?_getD, List.getElem?_set, if_neg h,
    ← List.getD_eq_getElem?_getD]

/-- Writing never changes the buffer length. -/
theorem length_writeAt :
    ∀ (bs buf : List Nat) (off : Nat),
      (writeAt buf off bs).length = buf.length := by
  intro bs
  induction bs with
  | nil => intro buf off; rfl
  | cons b bs ih =>
    intro buf off
    rw [show writeAt buf off (b :: bs) = writeAt (buf.set off b) (off + 1) bs
      from rfl]
    rw [ih (buf.set off b) (off + 1), List.length_set]

/-- Pointwise description of an in-bounds write: the window reads the
written bytes, everything else reads the original buffer. -/
theorem getD_writeAt :
    ∀ (bs buf : List Nat) (off : Nat), off + bs.length ≤ buf.length →
      ∀ i, (writeAt buf off bs).getD i 0 =
        if off ≤ i ∧ i < off + bs.length then bs.getD (i - off) 0
        else buf.getD i 0 := by
  intro bs
  induction bs with
  | nil =>
    intro buf off h i
    rw [show writeAt buf off [] = buf from rfl]
    rw [if_neg (by simp only [List.length_nil]; omega)]
  | cons b bs ih =>
    intro buf off h i
    have hofflt : off < buf.length := by simp at h; omega
    have hlen : off + 1 + bs.length ≤ (buf.set off b).length := by
      rw [List.length_set]
      simp at h
      omega
    rw [show writeAt buf off (b :: bs) = writeAt (buf.set off b) (off + 1) bs
      from rfl]
    rw [ih (buf.set off b) (off + 1) hlen i]
    by_cases h1 : off + 1 ≤ i ∧ i < off + 1 + bs.length
    · rw [if_pos h1, if_pos (by simp only [List.length_cons]; omega)]
      have he : i - off = (i - (off + 1)) + 1 := by omega
      rw [he]
      rfl
    · rw [if_neg h1]
      by_cases h2 : i = off
      · subst h2
        rw [getD_set_self buf i b hofflt]
        rw [if_pos (by simp only [List.length_cons]; omega)]
        simp
      · rw [getD_set_ne buf off i b (fun he => h2 he.symm)]
        rw [if_neg (by simp only [List.length_cons]; omega)]

/-- Reading yields exactly len bytes. -/
theorem length_readAt (buf : List Nat) (off len : Nat) :
    (readAt buf off len).length = len := by
  simp [readAt]

/-- Pointwise description of a read window. -/
theorem getD_readAt (buf : List Nat) (off len j : Nat) (h : j < len) :
    (readAt buf off len).getD j 0 = buf.getD (off + j) 0 := by
  unfold readAt
  rw [List.getD_eq_getElem?_getD, List.getElem?_map, List.getElem?_range h]
  rfl

/-- Two lists of equal length agreeing at every default-read position are
equal. -/
theorem list_eq_of_getD {l₁ l₂ : List Nat} (hlen : l₁.length = l₂.length)
    (h : ∀ j, j < l₁.length → l₁.getD j 0 = l₂.getD j 0) : l₁ = l₂ := by
  apply List.ext_getElem hlen
  intro j h1 h2
  have hj := h j h1
  rwa [List.getD_eq_getElem l₁ 0 h1, List.getD_eq_getElem l₂ 0 h2] at hj

/-- Reads only look at the window, so buffers agreeing there read alike. -/
theorem readAt_congr {b₁ b₂ : List Nat} (off len : Nat)
    (h : ∀ j, j < len → b₁.getD (off + j) 0 = b₂.getD (off + j) 0) :
    readAt b₁ off len = readAt b₂ off len := by
  unfold readAt
  apply List.map_congr_left
  intro j hj
  exact h j (List.mem_range.mp hj)

/-- Reading back a freshly written in-bounds window yields the written
bytes. -/
theorem readAt_writeAt_self (buf bs : List Nat) (off : Nat)
    (h : off + bs.length ≤ buf.length) :
    readAt (writeAt buf off bs) off bs.length = bs := by
  apply list_eq_of_getD
  · rw [length_readAt]
  · intro j hj
    rw [length_readAt] at hj
    rw [getD_readAt _ _ _ _ hj]
    rw [getD_writeAt bs buf off h (off + j)]
    rw [if_pos (by omega)]
    congr 1
    omega

/-- A write to a disjoint window does not change a read. -/
theorem readAt_writeAt_of_disjoint (buf bs : List Nat) (off len off₂ : Nat)
    (hd : off + len ≤ off₂ ∨ off₂ + bs.length ≤ off)
    (h : off₂ + bs.length ≤ buf.length) :
    readAt (writeAt buf off₂ bs) off len = readAt buf off len := by
  apply readAt_congr
  intro j hj
  rw [getD_writeAt bs buf off₂ h (off + j)]
  rw [if_neg (by omega)]

/-- Bytes of a written buffer come from the original buffer or the written
bytes. -/
theorem mem_writeAt :
    ∀ (bs buf : List Nat) (off : Nat) (x : Nat),
      x ∈ writeAt buf off bs → x ∈ buf ∨ x ∈ bs := by
  intro bs
  induction bs with
  | nil =>
    intro buf off x hx
    exact Or.inl hx
  | cons b bs ih =>
    intro buf off x hx
    rcases ih (buf.set off b) (off + 1) x hx with h | h
    · rcases List.mem_or_eq_of_mem_set h with h' | h'
      · exact Or.inl h'
      · exact Or.inr (by simp [h'])
    · exact Or.inr (List.mem_cons_of_mem b h)

/-- Bytes of a read window come from the buffer or are the default zero. -/
theorem mem_readAt (buf : List Nat) (off len : Nat) :
    ∀ x ∈ readAt buf off len, x ∈ buf ∨ x = 0 := by
  intro x hx
  unfold readAt at hx
  rcases List.mem_map.mp hx with ⟨j, _, he⟩
  rw [← he]
  rw [List.getD_eq_getElem?_getD]
  cases hg : buf[off + j]? with
  | none => simp
  | some v =>
    simp only [Option.getD_some]
    exact Or.inl (List.getElem?_mem hg)

/-- Setting one position inside a window commutes with reading the window
from offset zero. -/
theorem readAt_set (buf : List Nat) (i b' n : Nat) (hin : i < n)
    (hibuf : i < buf.length) :
    readAt (buf.set i b') 0 n = (readAt buf 0 n).set i b' := by
  apply list_eq_of_getD
  · rw [length_readAt, List.length_set, length_readAt]
  · intro j hj
    rw [length_readAt] at hj
    rw [getD_readAt _ _ _ _ hj, Nat.zero_add]
    by_cases hji : j = i
    · subst hji
      rw [getD_set_self buf j b' hibuf,
        getD_set_self (readAt buf 0 n) j b' (by rw [length_readAt]; omega)]
    · rw [getD_set_ne buf i j b' (fun he => hji he.symm),
        getD_set_ne (readAt buf 0 n) i j b' (fun he => hji he.symm),
        getD_readAt _ _ _ _ hj, Nat.zero_add]

/-- One CRC round stays inside the 16-bit register. -/
theorem crcRound_lt (c : Nat) (h : c < 65536) : crcRound c < 65536 := by
  unfold crcRound
  by_cases hp : c % 2 = 1
  · rw [if_pos hp]
    have hx := Nat.xor_lt_two_pow (show c / 2 < 2 ^ 16 by omega)
      (show (40961 : Nat) < 2 ^ 16 by omega)
    omega
  · rw [if_neg hp]
    omega

/-- Xor with the reflected polynomial lifts a low register above the top
bit. -/
theorem xor_poly_high (a : Nat) (ha : a < 32768) : 32768 ≤ a ^^^ 40961 := by
  have hbitA : a.testBit 15 = false :=
    Nat.testBit_lt_two_pow (show a < 2 ^ 15 by omega)
  have hbitK : (40961 : Nat).testBit 15 = true := by decide
  have hbit : (a ^^^ 40961).testBit 15 = true := by
    rw [Nat.testBit_xor, hbitA, hbitK]
    rfl
  have := Nat.testBit_implies_ge hbit
  omega

/-- One CRC round is injective on the 16-bit register. -/
theorem crcRound_inj (c₁ c₂ : Nat) (h₁ : c₁ < 65536) (h₂ : c₂ < 65536)
    (h : crcRound c₁ = crcRound c₂) : c₁ = c₂ := by
  unfold crcRound at h
  by_cases p₁ : c₁ % 2 = 1 <;> by_cases p₂ : c₂ % 2 = 1
  · rw [if_pos p₁, if_pos p₂] at h
    have hd : c₁ / 2 = c₂ / 2 := by
      have hc := congrArg (fun x => x ^^^ 40961) h
      simpa [Nat.xor_cancel_right] using hc
    omega
  · rw [if_pos p₁, if_neg p₂] at h
    have hhi := xor_poly_high (c₁ / 2) (by omega)
    omega
  · rw [if_neg p₁, if_pos p₂] at h
    have hhi := xor_poly_high (c₂ / 2) (by omega)
    omega
  · rw [if_neg p₁, if_neg p₂] at h
    omega

/-- Iterated CRC rounds stay inside the register. -/
theorem crcRounds_lt (n : Nat) : ∀ c, c < 65536 → crcRounds n c < 65536 := by
  induction n with
  | zero => intro c h; exact h
  | succ k ih => intro c h; exact ih (crcRound c) (crcRound_lt c h)

/-- Iterated CRC rounds are injective on the register. -/
theorem crcRounds_inj (n : Nat) :
    ∀ c₁ c₂, c₁ < 65536 → c₂ < 65536 →
      crcRounds n c₁ = crcRounds n c₂ → c₁ = c₂ := by
  induction n with
  | zero => intro c₁ c₂ _ _ h; exact h
  | succ k ih =>
    intro c₁ c₂ h₁ h₂ h
    exact crcRound_inj c₁ c₂ h₁ h₂
      (ih (crcRound c₁) (crcRound c₂) (crcRound_lt c₁ h₁) (crcRound_lt c₂ h₂) h)

/-- Folding a byte keeps the register inside 16 bits. -/
theorem crcStep_lt (c b : Nat) (hc : c < 65536) (hb : b < 65536) :
    crcStep c b < 65536 := by
  unfold crcStep
  exact crcRounds_lt 8 (c ^^^ b)
    (by
      have := Nat.xor_lt_two_pow (show c < 2 ^ 16 by omega)
        (show b < 2 ^ 16 by omega)
      omega)

/-- Folding the same byte is injective in the register. -/
theorem crcStep_inj_left (c₁ c₂ b : Nat) (h₁ : c₁ < 65536) (h₂ : c₂ < 65536)
    (hb : b < 65536) (h : crcStep c₁ b = crcStep c₂ b) : c₁ = c₂ := by
  unfold crcStep at h
  have hx₁ : c₁ ^^^ b < 65536 := by
    have := Nat.xor_lt_two_pow (show c₁ < 2 ^ 16 by omega)
      (show b < 2 ^ 16 by omega)
    omega
  have hx₂ : c₂ ^^^ b < 65536 := by
    have := Nat.xor_lt_two_pow (show c₂ < 2 ^ 16 by omega)
      (show b < 2 ^ 16 by omega)
    omega
  have hxe := crcRounds_inj 8 (c₁ ^^^ b) (c₂ ^^^ b) hx₁ hx₂ h
  have hc := congrArg (fun x => x ^^^ b) hxe
  simpa [Nat.xor_cancel_right] using hc

/-- Folding different bytes from the same register gives different
registers. -/
theorem crcStep_ne_right (c b₁ b₂ : Nat) (hc : c < 65536) (hb₁ : b₁ < 65536)
    (hb₂ : b₂ < 65536) (hne : b₁ ≠ b₂) : crcStep c b₁ ≠ crcStep c b₂ := by
  intro h
  unfold crcStep at h
  have hx₁ : c ^^^ b₁ < 65536 := by
    have := Nat.xor_lt_two_pow (show c < 2 ^ 16 by omega)
      (show b₁ < 2 ^ 16 by omega)
    omega
  have hx₂ : c ^^^ b₂ < 65536 := by
    have := Nat.xor_lt_two_pow (show c < 2 ^ 16 by omega)
      (show b₂ < 2 ^ 16 by omega)
    omega
  have hxe := crcRounds_inj 8 (c ^^^ b₁) (c ^^^ b₂) hx₁ hx₂ h
  have hcc := congrArg (fun x => c ^^^ x) hxe
  simp only [Nat.xor_cancel_left] at hcc
  exact hne hcc

/-- The CRC register stays inside 16 bits along any byte list. -/
theorem crcFold_lt :
    ∀ (l : List Nat) (c : Nat), c < 65536 → (∀ b ∈ l, b < 256) →
      l.foldl crcStep c < 65536 := by
  intro l
  induction l with
  | nil => intro c hc _; exact hc
  | cons a t ih =>
    intro c hc hmem
    rw [List.foldl_cons]
    exact ih (crcStep c a)
      (crcStep_lt c a hc (by have := hmem a (List.mem_cons_self a t); omega))
      (fun b hb => hmem b (List.mem_cons_of_mem a hb))

/-- Distinct registers stay distinct along any shared byte list. -/
theorem crcFold_inj :
    ∀ (l : List Nat) (c₁ c₂ : Nat), c₁ < 65536 → c₂ < 65536 →
      (∀ b ∈ l, b < 256) → c₁ ≠ c₂ →
      l.foldl crcStep c₁ ≠ l.foldl crcStep c₂ := by
  intro l
  induction l with
  | nil => intro c₁ c₂ _ _ _ hne; exact hne
  | cons a t ih =>
    intro c₁ c₂ h₁ h₂ hmem hne
    rw [List.foldl_cons, List.foldl_cons]
    have ha : a < 256 := hmem a (List.mem_cons_self a t)
    refine ih (crcStep c₁ a) (crcStep c₂ a) (crcStep_lt c₁ a h₁ (by omega))
      (crcStep_lt c₂ a h₂ (by omega))
      (fun b hb => hmem b (List.mem_cons_of_mem a hb)) ?_
    intro h
    exact hne (crcStep_inj_left c₁ c₂ a h₁ h₂ (by omega) h)

/-- Replacing one byte with a different value changes the CRC fold. -/
theorem crcFold_set_ne :
    ∀ (l : List Nat) (i c b' : Nat), c < 65536 → (∀ b ∈ l, b < 256) →
      b' < 256 → i < l.length → b' ≠ l.getD i 0 →
      (l.set i b').foldl crcStep c ≠ l.foldl crcStep c := by
  intro l
  induction l with
  | nil =>
    intro i c b' _ _ _ hi _
    simp at hi
  | cons a t ih =>
    intro i c b' hc hmem hb' hi hne
    have ha : a < 256 := hmem a (List.mem_cons_self a t)
    cases i with
    | zero =>
      rw [show (a :: t).set 0 b' = b' :: t from rfl,
        List.foldl_cons, List.foldl_cons]
      refine crcFold_inj t (crcStep c b') (crcStep c a)
        (crcStep_lt c b' hc (by omega)) (crcStep_lt c a hc (by omega))
        (fun b hb => hmem b (List.mem_cons_of_mem a hb)) ?_
      exact crcStep_ne_right c b' a hc (by omega) (by omega)
        (by simpa using hne)
    | succ j =>
      rw [show (a :: t).set (j + 1) b' = a :: t.set j b' from rfl,
        List.foldl_cons, List.foldl_cons]
      exact ih j (crcStep c a) b' (crcStep_lt c a hc (by omega))
        (fun b hb => hmem b (List.mem_cons_of_mem a hb)) hb'
        (by simpa using hi) (by simpa using hne)

/-- The full CRC16 stays inside 16 bits. -/
theorem crc16_lt (l : List Nat) (h : ∀ b ∈ l, b < 256) : crc16 l < 65536 :=
  crcFold_lt l 65535 (by omega) h

/-- CRC16 detects every single-byte substitution. -/
theorem crc16_set_ne (l : List Nat) (i b' : Nat) (hmem : ∀ b ∈ l, b < 256)
    (hb' : b' < 256) (hi : i < l.length) (hne : b' ≠ l.getD i 0) :
    crc16 (l.set i b') ≠ crc16 l :=
  crcFold_set_ne l i 65535 b' (by omega) hmem hb' hi hne

/-- The reduced byte sum detects every single-byte substitution when the
modulus is at least a byte wide. -/
theorem sum_set_mod_ne :
    ∀ (l : List Nat) (i b' M : Nat), 256 ≤ M → (∀ b ∈ l, b < 256) →
      b' < 256 → i < l.length → b' ≠ l.getD i 0 →
      (l.set i b').sum % M ≠ l.sum % M := by
  intro l
  induction l with
  | nil =>
    intro i b' M _ _ _ hi _
    simp at hi
  | cons a t ih =>
    intro i b' M hM hmem hb' hi hne
    have ha : a < 256 := hmem a (List.mem_cons_self a t)
    cases i with
    | zero =>
      intro h
      rw [show (a :: t).set 0 b' = b' :: t from rfl,
        List.sum_cons, List.sum_cons] at h
      have h1 : t.sum + b' ≡ t.sum + a [MOD M] := by
        unfold Nat.ModEq
        rw [Nat.add_comm t.sum b', Nat.add_comm t.sum a]
        exact h
      have h2 : b' % M = a % M := Nat.ModEq.add_left_cancel' t.sum h1
      rw [Nat.mod_eq_of_lt (by omega), Nat.mod_eq_of_lt (by omega)] at h2
      exact hne (by simpa using h2)
    | succ j =>
      intro h
      rw [show (a :: t).set (j + 1) b' = a :: t.set j b' from rfl,
        List.sum_cons, List.sum_cons] at h
      have h2 : (t.set j b').sum % M = t.sum % M :=
        Nat.ModEq.add_left_cancel' a h
      exact ih j b' M hM (fun b hb => hmem b (List.mem_cons_of_mem a hb)) hb'
        (by simpa using hi) (by simpa using hne) h2

/-- 256 to a byte count is 2 to the bit count. -/
theorem pow256_eq (len : Nat) : (256 : Nat) ^ len = 2 ^ (8 * len) := by
  rw [show (256 : Nat) = 2 ^ 8 from rfl, ← pow_mul]

/-- Core inverse law for the linear transform in its general branch. -/
theorem linear_inverse (sc off v : Rat) (i : Int)
    (h : (if sc = 0 then none
          else if ((v - off) / sc).den = 1 then some ((v - off) / sc).num
          else none) = some i) :
    (i : Rat) * sc + off = v := by
  by_cases hsc : sc = 0
  · rw [if_pos hsc] at h
    exact absurd h (by simp)
  · rw [if_neg hsc] at h
    by_cases hden : ((v - off) / sc).den = 1
    · rw [if_pos hden] at h
      have hi : ((v - off) / sc).num = i := Option.some.inj h
      have hq : ((((v - off) / sc).num : Int) : Rat) = (v - off) / sc :=
        (Rat.den_eq_one_iff _).mp hden
      rw [← hi, hq, div_mul_cancel₀ _ hsc]
      ring
    · rw [if_neg hden] at h
      exact absurd h (by simp)

/-- The encode direction of the linear transform is a right inverse of the
decode direction. -/
theorem applyLinear_unapplyLinear (scale offv : Option Rat) (v : Rat) (i : Int)
    (h : unapplyLinear scale offv v = some i) : applyLinear scale offv i = v := by
  cases scale with
  | none =>
    cases offv with
    | none =>
      unfold unapplyLinear at h
      unfold applyLinear
      by_cases hden : v.den = 1
      · rw [if_pos hden] at h
        have hi : v.num = i := Option.some.inj h
        rw [← hi]
        exact (Rat.den_eq_one_iff v).mp hden
      · rw [if_neg hden] at h
        exact absurd h (by simp)
    | some o =>
      unfold unapplyLinear at h
      unfold applyLinear
      simp only [Option.getD_some, Option.getD_none] at h ⊢
      exact linear_inverse 1 o v i h
  | some s =>
    cases offv with
    | none =>
      unfold unapplyLinear at h
      unfold applyLinear
      simp only [Option.getD_some, Option.getD_none] at h ⊢
      exact linear_inverse s 0 v i h
    | some o =>
      unfold unapplyLinear at h
      unfold applyLinear
      simp only [Option.getD_some, Option.getD_none] at h ⊢
      exact linear_inverse s o v i h

/-- A successful field encoding emits exactly the field's byte length. -/
theorem encodeField_length (f : FrameFieldConfig) (v : Value) (bs : List Nat)
    (h : encodeField f v = some bs) : bs.length = f.length := by
  unfold encodeField at h
  repeat' split at h
  all_goals simp_all [length_natToBytes]
  · rw [← h, length_natToBytes]
  · rw [← h, length_natToBytes]

/-- A successful field encoding emits only byte values. -/
theorem encodeField_mem (f : FrameFieldConfig) (v : Value) (bs : List Nat)
    (h : encodeField f v = some bs) : ∀ b ∈ bs, b < 256 := by
  unfold encodeField at h
  repeat' split at h
  all_goals simp_all
  · intro b hb
    rw [← h] at hb
    exact mem_natToBytes _ _ _ b hb
  · intro b hb
    rw [← h] at hb
    exact mem_natToBytes _ _ _ b hb

/-- Decoding a field from its own successful encoding recovers the value. -/
theorem decodeFieldBytes_encodeField (f : FrameFieldConfig) (v : Value)
    (bs : List Nat) (h : encodeField f v = some bs) :
    decodeFieldBytes f bs = some v := by
  cases v with
  | str s => exact absurd h (by simp [encodeField])
  | boolV b => exact absurd h (by simp [encodeField])
  | nullV => exact absurd h (by simp [encodeField])
  | num q =>
    rw [show encodeField f (.num q) =
      (match unapplyLinear f.scale f.offset_value q with
       | none => none
       | some i =>
         if isUnsignedType f.data_type then
           if 0 ≤ i ∧ i < (256 : Int) ^ f.length then
             some (natToBytes f.byte_order f.length i.toNat)
           else none
         else if isSignedType f.data_type then
           if 0 < f.length ∧ -((2 : Int) ^ (8 * f.length - 1)) ≤ i
               ∧ i < (2 : Int) ^ (8 * f.length - 1) then
             some (natToBytes f.byte_order f.length (fromSigned (8 * f.length) i))
           else none
         else none) from rfl] at h
    cases hu : unapplyLinear f.scale f.offset_value q with
    | none =>
      rw [hu] at h
      exact absurd h (by simp)
    | some i =>
      rw [hu] at h
      simp only [] at h
      by_cases h1 : isUnsignedType f.data_type = true
      · rw [if_pos h1] at h
        by_cases h2 : 0 ≤ i ∧ i < (256 : Int) ^ f.length
        · rw [if_pos h2] at h
          have hbs : natToBytes f.byte_order f.length i.toNat = bs :=
            Option.some.inj h
          have hrange : i.toNat < 256 ^ f.length := by
            have hcast : ((256 : Int) ^ f.length) =
                ((256 ^ f.length : Nat) : Int) := by push_cast; ring
            rw [hcast] at h2
            omega
          unfold decodeFieldBytes
          rw [← hbs, bytesToNat_natToBytes f.byte_order f.length i.toNat hrange]
          rw [if_pos h1]
          have hofn : Int.ofNat i.toNat = i := by
            rw [Int.ofNat_eq_coe]
            exact Int.toNat_of_nonneg h2.1
          rw [hofn, applyLinear_unapplyLinear f.scale f.offset_value q i hu]
        · rw [if_neg h2] at h
          exact absurd h (by simp)
      · rw [if_neg h1] at h
        by_cases h3 : isSignedType f.data_type = true
        · rw [if_pos h3] at h
          by_cases h4 : 0 < f.length
              ∧ -((2 : Int) ^ (8 * f.length - 1)) ≤ i
              ∧ i < (2 : Int) ^ (8 * f.length - 1)
          · rw [if_pos h4] at h
            have hbs : natToBytes f.byte_order f.length
                (fromSigned (8 * f.length) i) = bs := Option.some.inj h
            have hrange : fromSigned (8 * f.length) i < 256 ^ f.length := by
              rw [pow256_eq]
              exact fromSigned_lt (8 * f.length) i
            unfold decodeFieldBytes
            rw [← hbs,
              bytesToNat_natToBytes f.byte_order f.length _ hrange]
            rw [if_neg h1, if_pos h3]
            rw [toSigned_fromSigned (8 * f.length) i (by omega) h4.2.1 h4.2.2]
            rw [applyLinear_unapplyLinear f.scale f.offset_value q i hu]
          · rw [if_neg h4] at h
            exact absurd h (by simp)
        · rw [if_neg h3] at h
          exact absurd h (by simp)

/-- Separation property of the field-writing pass: the output keeps the
buffer length, leaves untouched positions alone, shows each field's own
encoding in that field's window, and writes only byte values. -/
theorem encodeFields_spec :
    ∀ (fs : List FrameFieldConfig) (vals : String → Value) (buf buf' : List Nat),
      encodeFields vals buf fs = some buf' →
      (∀ f ∈ fs, f.offset + f.length ≤ buf.length) →
      fs.Pairwise fieldsDisjoint →
      buf'.length = buf.length
      ∧ (∀ i, (∀ f ∈ fs, i < f.offset ∨ f.offset + f.length ≤ i) →
          buf'.getD i 0 = buf.getD i 0)
      ∧ (∀ f ∈ fs, ∃ bs, encodeField f (vals f.name) = some bs ∧
          readAt buf' f.offset f.length = bs)
      ∧ (∀ b ∈ buf', b ∈ buf ∨ b < 256) := by
  intro fs
  induction fs with
  | nil =>
    intro vals buf buf' h _ _
    have hb : buf = buf' := Option.some.inj h
    subst hb
    exact ⟨rfl, fun i _ => rfl, fun f hf => absurd hf (List.not_mem_nil f),
      fun b hb => Or.inl hb⟩
  | cons f fs ih =>
    intro vals buf buf' h hfit hdisj
    rw [show encodeFields vals buf (f :: fs) =
      (match encodeField f (vals f.name) with
       | none => none
       | some bs => encodeFields vals (writeAt buf f.offset bs) fs) from rfl] at h
    cases hbs : encodeField f (vals f.name) with
    | none =>
      rw [hbs] at h
      exact absurd h (by simp)
    | some bs =>
      rw [hbs] at h
      simp only [] at h
      have hbslen : bs.length = f.length := encodeField_length f _ bs hbs
      have hffit : f.offset + f.length ≤ buf.length :=
        hfit f (List.mem_cons_self f fs)
      have hwfit : f.offset + bs.length ≤ buf.length := by
        rw [hbslen]; exact hffit
      have hlen1 : (writeAt buf f.offset bs).length = buf.length :=
        length_writeAt bs buf f.offset
      have hfit' : ∀ g ∈ fs,
          g.offset + g.length ≤ (writeAt buf f.offset bs).length := by
        intro g hg
        rw [hlen1]
        exact hfit g (List.mem_cons_of_mem f hg)
      have hdisjf : ∀ g ∈ fs, fieldsDisjoint f g :=
        (List.pairwise_cons.mp hdisj).1
      have hdisj' : fs.Pairwise fieldsDisjoint :=
        (List.pairwise_cons.mp hdisj).2
      obtain ⟨hl, huntouched, hfields, hmem⟩ :=
        ih vals (writeAt buf f.offset bs) buf' h hfit' hdisj'
      refine ⟨by rw [hl, hlen1], ?_, ?_, ?_⟩
      · intro i hi
        have h1 := huntouched i (fun g hg => hi g (List.mem_cons_of_mem f hg))
        rw [h1, getD_writeAt bs buf f.offset hwfit i]
        have h2 := hi f (List.mem_cons_self f fs)
        rw [if_neg (by rw [hbslen]; omega)]
      · intro g hg
        rcases List.mem_cons.mp hg with he | hg'
        · subst he
          refine ⟨bs, hbs, ?_⟩
          have hwin : readAt buf' g.offset g.length =
              readAt (writeAt buf g.offset bs) g.offset g.length := by
            apply readAt_congr
            intro j hj
            apply huntouched
            intro g' hg'
            have hd := hdisjf g' hg'
            unfold fieldsDisjoint at hd
            omega
          rw [hwin, ← hbslen]
          exact readAt_writeAt_self buf bs g.offset hwfit
        · exact hfields g hg'
      · intro b hb
        rcases hmem b hb with h1 | h1
        · rcases mem_writeAt bs buf f.offset b h1 with h2 | h2
          · exact Or.inl h2
          · exact Or.inr (encodeField_mem f _ bs hbs b h2)
        · exact Or.inr h1

/-- When every field's window shows that field's own encoding, decoding all
fields recovers the valuation in schema order. -/
theorem decodeFields_of_windows (buf : List Nat) (vals : String → Value) :
    ∀ fs : List FrameFieldConfig,
      (∀ f ∈ fs, ∃ bs, encodeField f (vals f.name) = some bs ∧
        readAt buf f.offset f.length = bs) →
      decodeFields buf fs = some (fs.map (fun f => (f.name, vals f.name))) := by
  intro fs
  induction fs with
  | nil => intro _; rfl
  | cons f fs ih =>
    intro h
    obtain ⟨bs, hbs, hwin⟩ := h f (List.mem_cons_self f fs)
    have hdec : decodeField buf f = some (vals f.name) := by
      unfold decodeField
      rw [hwin]
      exact decodeFieldBytes_encodeField f _ bs hbs
    have hrest := ih (fun g hg => h g (List.mem_cons_of_mem f hg))
    show (match decodeField buf f, decodeFields buf fs with
          | some v, some rest => some ((f.name, v) :: rest)
          | _, _ => none) =
      some ((f :: fs).map (fun g => (g.name, vals g.name)))
    rw [hdec, hrest]
    rfl

/-- Claim C6: for every FIXED frame schema whose fields fit the frame,
occupy pairwise-disjoint windows inside the checksum-covered range, and
carry a supported checksum descriptor, parsing the byte buffer produced by
encoding a valid field-value map under the same schema returns exactly the
original field map, with the linear transform scaled = raw * scale +
offset_value applied consistently in both directions. -/
theorem claim6_fixed_roundTrip (S : FrameSchema) (L : Nat) (vals : String → Value)
    (buf : List Nat)
    (hft : S.frame_type = .fixed)
    (hL : S.total_length = some L)
    (hfit : ∀ f ∈ S.fields, f.offset + f.length ≤ L)
    (hdisj : S.fields.Pairwise fieldsDisjoint)
    (hck : checksumOk L S.checksum S.fields)
    (henc : encode S vals = some buf) :
    parse S buf = .ok (S.fields.map (fun f => (f.name, vals f.name))) := by
  unfold encode at henc
  rw [hft, hL] at henc
  simp only [] at henc
  cases henc0 : encodeFields vals (List.replicate L 0) S.fields with
  | none =>
    rw [henc0] at henc
    exact absurd henc (by simp)
  | some buf₀ =>
    rw [henc0] at henc
    simp only [] at henc
    have hrep : (List.replicate L 0).length = L := List.length_replicate L 0
    have hfit0 : ∀ f ∈ S.fields,
        f.offset + f.length ≤ (List.replicate L 0).length := by
      rw [hrep]; exact hfit
    obtain ⟨hlen0, huntouched0, hwin0, hmem0⟩ :=
      encodeFields_spec S.fields vals (List.replicate L 0) buf₀ henc0 hfit0 hdisj
    have hbuf0len : buf₀.length = L := by rw [hlen0, hrep]
    have hbyte0 : ∀ b ∈ buf₀, b < 256 := by
      intro b hb
      rcases hmem0 b hb with h1 | h1
      · have := List.eq_of_mem_replicate h1
        omega
      · exact h1
    cases hcks : S.checksum with
    | none =>
      rw [hcks] at henc
      simp only [] at henc
      have hb : buf₀ = buf := Option.some.inj henc
      subst hb
      unfold parse
      rw [hft, hL]
      simp only []
      rw [if_neg (by simp [hbuf0len]), hcks]
      simp only []
      rw [decodeFields_of_windows buf₀ vals S.fields hwin0]
    | some ck =>
      rw [hcks] at henc
      simp only [] at henc
      rw [hcks] at hck
      obtain ⟨hckfit, hcktype, hckcover⟩ := hck
      cases hv : computeChecksum ck.type ck.length (readAt buf₀ 0 ck.offset) with
      | none =>
        rw [hv] at henc
        exact absurd henc (by simp)
      | some v =>
        rw [hv] at henc
        simp only [] at henc
        have hbuf : writeAt buf₀ ck.offset (natToBytes .littleEndian ck.length v)
            = buf := Option.some.inj henc
        have hcov256 : ∀ b ∈ readAt buf₀ 0 ck.offset, b < 256 := by
          intro b hb
          rcases mem_readAt buf₀ 0 ck.offset b hb with h1 | h1
          · exact hbyte0 b h1
          · omega
        have hvlt : v < 256 ^ ck.length := by
          rcases hcktype with ⟨ht, hl1⟩ | ⟨ht, hl2⟩
          · rw [ht] at hv
            have hvv : (readAt buf₀ 0 ck.offset).sum % 2 ^ (8 * ck.length) = v :=
              Option.some.inj hv
            rw [pow256_eq, ← hvv]
            exact Nat.mod_lt _ (by positivity)
          · rw [ht] at hv
            have hvv : crc16 (readAt buf₀ 0 ck.offset) = v := Option.some.inj hv
            have hcl := crc16_lt _ hcov256
            have h2 : (256 : Nat) ^ 2 = 65536 := by norm_num
            rw [hl2]
            omega
        have hcklen : (natToBytes .littleEndian ck.length v).length = ck.length :=
          length_natToBytes .littleEndian ck.length v
        have hwr : ck.offset + (natToBytes .littleEndian ck.length v).length
            ≤ buf₀.length := by
          rw [hcklen, hbuf0len]
          exact hckfit
        have hblen : buf.length = L := by
          rw [← hbuf, length_writeAt, hbuf0len]
        unfold parse
        rw [hft, hL]
        simp only []
        rw [if_neg (by simp [hblen]), hcks]
        simp only []
        have hcov_pres : readAt buf 0 ck.offset = readAt buf₀ 0 ck.offset := by
          rw [← hbuf]
          exact readAt_writeAt_of_disjoint buf₀ _ 0 ck.offset ck.offset
            (Or.inl (by omega)) hwr
        have hemb : readAt buf ck.offset ck.length =
            natToBytes .littleEndian ck.length v := by
          have hemb0 := readAt_writeAt_self buf₀
            (natToBytes .littleEndian ck.length v) ck.offset hwr
          rw [hcklen] at hemb0
          rw [← hbuf]
          exact hemb0
        have hver : verifyChecksum buf ck = some true := by
          unfold verifyChecksum
          rw [hcov_pres, hv]
          simp only []
          rw [hemb, bytesToNat_natToBytes .littleEndian ck.length v hvlt]
          simp
        rw [hver]
        simp only [if_pos]
        have hwin : ∀ f ∈ S.fields, ∃ bs,
            encodeField f (vals f.name) = some bs ∧
            readAt buf f.offset f.length = bs := by
          intro f hf
          obtain ⟨bs, hbs, hw⟩ := hwin0 f hf
          refine ⟨bs, hbs, ?_⟩
          rw [← hw, ← hbuf]
          exact readAt_writeAt_of_disjoint buf₀ _ f.offset f.length ck.offset
            (Or.inl (by have := hckcover f hf; omega)) hwr
        rw [decodeFields_of_windows buf vals S.fields hwin]

/-- Witness for C6: a concrete schema and valuation round-trip through a
concrete buffer. -/
theorem claim6_witness :
    encode demoSchema demoVals = some [3, 232, 251, 230]
    ∧ parse demoSchema [3, 232, 251, 230] =
        .ok (demoSchema.fields.map (fun f => (f.name, demoVals f.name))) := by
  refine ⟨by decide, ?_⟩
  exact claim6_fixed_roundTrip demoSchema 4 demoVals [3, 232, 251, 230]
    rfl rfl (by decide) (by decide)
    ⟨by decide, Or.inl ⟨rfl, by decide⟩, by decide⟩ (by decide)

/-- Claim C7: for a FIXED frame schema carrying a supported checksum
descriptor and a frame whose embedded checksum verifies, replacing any
single byte inside the checksum-covered range with a different byte value
makes parse return the error value ChecksumInvalid — the mismatch is an
error value of the result type, never a thrown exception. -/
theorem claim7_checksum_flip (S : FrameSchema) (L : Nat)
    (ck : FrameChecksumConfig) (buf : List Nat) (i b' : Nat)
    (hft : S.frame_type = .fixed)
    (hL : S.total_length = some L)
    (hlen : buf.length = L)
    (hcks : S.checksum = some ck)
    (hcktype : ck.type = .simpleSum ∧ 1 ≤ ck.length
      ∨ ck.type = .crc16T ∧ ck.length = 2)
    (hckfit : ck.offset + ck.length ≤ L)
    (hbytes : ∀ b ∈ buf, b < 256)
    (hb' : b' < 256)
    (hi : i < ck.offset)
    (hne : b' ≠ buf.getD i 0)
    (hvalid : verifyChecksum buf ck = some true) :
    parse S (buf.set i b') = .error .ChecksumInvalid := by
  have hibuf : i < buf.length := by omega
  have hlen' : (buf.set i b').length = L := by
    rw [List.length_set]; exact hlen
  have hembsame : readAt (buf.set i b') ck.offset ck.length =
      readAt buf ck.offset ck.length := by
    apply readAt_congr
    intro j hj
    exact getD_set_ne buf i (ck.offset + j) b' (by omega)
  have hcovset : readAt (buf.set i b') 0 ck.offset =
      (readAt buf 0 ck.offset).set i b' :=
    readAt_set buf i b' ck.offset hi hibuf
  have hcov256 : ∀ b ∈ readAt buf 0 ck.offset, b < 256 := by
    intro b hb
    rcases mem_readAt buf 0 ck.offset b hb with h1 | h1
    · exact hbytes b h1
    · omega
  have hicov : i < (readAt buf 0 ck.offset).length := by
    rw [length_readAt]; omega
  have hnecov : b' ≠ (readAt buf 0 ck.offset).getD i 0 := by
    have hg := getD_readAt buf 0 ck.offset i hi
    rw [Nat.zero_add] at hg
    rw [hg]
    exact hne
  cases hcomp : computeChecksum ck.type ck.length (readAt buf 0 ck.offset) with
  | none =>
    exfalso
    unfold verifyChecksum at hvalid
    rw [hcomp] at hvalid
    exact absurd hvalid (by simp)
  | some v =>
    have hveq : v = bytesToNat .littleEndian (readAt buf ck.offset ck.length) := by
      unfold verifyChecksum at hvalid
      rw [hcomp] at hvalid
      simp only [] at hvalid
      exact beq_iff_eq.mp (Option.some.inj hvalid)
    have hver' : verifyChecksum (buf.set i b') ck = some false := by
      rcases hcktype with ⟨ht, hl1⟩ | ⟨ht, hl2⟩
      · rw [ht] at hcomp
        simp only [computeChecksum] at hcomp
        have hv := Option.some.inj hcomp
        have hMge : 256 ≤ 2 ^ (8 * ck.length) := by
          calc (256 : Nat) = 2 ^ 8 := rfl
          _ ≤ 2 ^ (8 * ck.length) := Nat.pow_le_pow_right (by omega) (by omega)
        have hflip : ((readAt buf 0 ck.offset).set i b').sum
            % 2 ^ (8 * ck.length) ≠ v := by
          rw [← hv]
          exact sum_set_mod_ne (readAt buf 0 ck.offset) i b' _ hMge hcov256
            hb' hicov hnecov
        unfold verifyChecksum
        rw [hcovset, ht]
        simp only [computeChecksum]
        rw [hembsame, ← hveq]
        rw [show ((((readAt buf 0 ck.offset).set i b').sum
            % 2 ^ (8 * ck.length)) == v) = false from
          beq_eq_false_iff_ne.mpr hflip]
      · rw [ht] at hcomp
        simp only [computeChecksum] at hcomp
        have hv := Option.some.inj hcomp
        have hflip : crc16 ((readAt buf 0 ck.offset).set i b') ≠ v := by
          rw [← hv]
          exact crc16_set_ne (readAt buf 0 ck.offset) i b' hcov256 hb'
            hicov hnecov
        unfold verifyChecksum
        rw [hcovset, ht]
        simp only [computeChecksum]
        rw [hembsame, ← hveq]
        rw [show ((crc16 ((readAt buf 0 ck.offset).set i b')) == v) = false from
          beq_eq_false_iff_ne.mpr hflip]
    unfold parse
    rw [hft, hL]
    simp only []
    rw [if_neg (by simp [hlen']), hcks]
    simp only []
    rw [hver']
    rfl

set_option maxRecDepth 8000 in
/-- Witness for C7: flipping the high byte of raw_value in the correctly
checksummed Modbus frame yields ChecksumInvalid. -/
theorem claim7_witness :
    parse modbusSchema (modbusBuf.set 7 0) = .error .ChecksumInvalid :=
  claim7_checksum_flip modbusSchema 16
    { type := .crc16T, offset := 12, length := 2 } modbusBuf 7 0
    rfl rfl (by decide) rfl (Or.inr ⟨rfl, rfl⟩) (by decide) (by decide)
    (by decide) (by decide) (by decide) (by decide)

set_option maxRecDepth 8000 in
/-- Claim C8: parse rejects, with FrameLengthMismatch, every buffer whose
length differs from a FIXED schema's total_length; and parsing the
correctly checksummed 16-byte Modbus-style frame carrying raw_value 1000
returns raw_value 1000 with no error. -/
theorem claim8_length_mismatch_and_modbus :
    (∀ (S : FrameSchema) (L : Nat) (buf : List Nat),
      S.frame_type = .fixed → S.total_length = some L → buf.length ≠ L →
      parse S buf = .error .FrameLengthMismatch)
    ∧ parse modbusSchema modbusBuf =
        .ok [("slave_id", Value.num 1), ("function_code", Value.num 3),
             ("raw_value", Value.num 1000)]
    ∧ [("slave_id", Value.num 1), ("function_code", Value.num 3),
       ("raw_value", Value.num 1000)].lookup "raw_value" =
        some (Value.num 1000) := by
  refine ⟨?_, by decide, by decide⟩
  intro S L buf hft hL hnel
  unfold parse
  rw [hft, hL]
  simp only []
  rw [if_pos hnel]

/-- Witness for C8: the empty buffer is rejected against the 16-byte Modbus
schema. -/
theorem claim8_witness :
    parse modbusSchema [] = .error .FrameLengthMismatch :=
  claim8_length_mismatch_and_modbus.1 modbusSchema 16 [] rfl rfl (by decide)

end Gateway
